import Mathlib

/-! Shallow embedding of the `github-proxy` URL conversion core.

The embedding follows the Rust sources:
  * `src/resource.rs` — the `Resource` model, the renderer `Resource::url`,
    the parser `TryFrom<&str> for Resource` (three anchored regexes) and
    `split_reference_and_path`;
  * `src/proxy.rs` — the `Proxy` enumeration and its `FromStr`;
  * `src/error.rs` — `ConversionError`.

Strings are Lean `String`s.  The three anchored regexes of `resource.rs`
(`^https?://github\.com/([^/]+)/([^/]+)/raw/(.+)$` and its `blob` /
`releases/download` variants) are embedded by their segment-wise reading:
a string matches iff its `/`-separated segment list has the literal shape
`scheme :: "" :: "github.com" :: …` with the captured groups being
non-empty segments (`[^/]+`) resp. a non-empty remainder (`.+`); since
`[^/]+` cannot cross a `/`, the regex decomposition is unique, so this
reading is exact.  Rust's `str::trim` and `str::to_lowercase` are modelled
on ASCII (whitespace ` \t\n\r`, letters `A`–`Z`), which is the fragment
exercised by URLs and proxy identifiers.
-/

/-- Split a character list at every `'/'`, like Rust's `str::split('/')`:
the result is always non-empty, and empty segments are kept. -/
def splitChars : List Char → List (List Char)
  | [] => [[]]
  | c :: cs =>
    match splitChars cs with
    | [] => [[]]
    | s :: rest => if c = '/' then [] :: s :: rest else (c :: s) :: rest

/-- Join character-list segments with `'/'`, like Rust's `[&str]::join("/")`. -/
def joinChars : List (List Char) → List Char
  | [] => []
  | [s] => s
  | s :: t :: r => s ++ '/' :: joinChars (t :: r)

/-- String-level wrapper of `splitChars` (Rust `split('/').collect::<Vec<_>>()`). -/
def splitSlash (s : String) : List String :=
  (splitChars s.data).map String.mk

/-- String-level wrapper of `joinChars` (Rust `join("/")`). -/
def joinSlash (l : List String) : String :=
  String.mk (joinChars (l.map String.data))

/-- ASCII model of Rust's `str::trim`: drop leading and trailing whitespace. -/
def trimChars (s : String) : String :=
  String.mk (((s.data.dropWhile Char.isWhitespace).reverse.dropWhile
    Char.isWhitespace).reverse)

/-- ASCII lowercasing of one character (`A`–`Z` ↦ `a`–`z`). -/
def charToLower (c : Char) : Char :=
  if 65 ≤ c.toNat ∧ c.toNat ≤ 90 then Char.ofNat (c.toNat + 32) else c

/-- ASCII model of Rust's `str::to_lowercase`. -/
def toLowerStr (s : String) : String :=
  String.mk (s.data.map charToLower)

deriving instance DecidableEq for Except

/-- Error type of `src/error.rs` (`ConversionError`), payloads included. -/
inductive ConversionError where
  | InvalidProxyType (input : String)
  | InvalidResourceType (input : String)
  | InvalidArguments (detail : String)
  | InvalidUrl (input : String)
  | ParseError (detail : String)
deriving DecidableEq, Repr

/-- Proxy enumeration.  `src/proxy.rs` declares four variants (`GitHub`,
`GhProxy`, `Xget`, `Jsdelivr`); the renderer in `src/resource.rs`
additionally matches a `Statically` variant (which `src/error.rs`'s
supported-types message and `src/cli.rs`'s usage text also list), so the
embedding carries all five constructors.  `Proxy.fromStr` below follows
the `FromStr` impl of `src/proxy.rs`, which has no arm for it. -/
inductive Proxy where
  | GitHub
  | GhProxy
  | Xget
  | Jsdelivr
  | Statically
deriving DecidableEq, Repr

/-- Model of `FromStr for Proxy` from `src/proxy.rs`: lowercase the input and match
the four identifiers; anything else is `InvalidProxyType` carrying the
original (un-lowercased) input. -/
def Proxy.fromStr (s : String) : Except ConversionError Proxy :=
  if toLowerStr s = "github" then .ok .GitHub
  else if toLowerStr s = "gh-proxy" then .ok .GhProxy
  else if toLowerStr s = "xget" then .ok .Xget
  else if toLowerStr s = "jsdelivr" then .ok .Jsdelivr
  else .error (.InvalidProxyType s)

/-- The `Resource` enum of `src/resource.rs`. -/
inductive Resource where
  | File (owner repo reference path : String)
  | Release (owner repo tag name : String)
deriving DecidableEq, Repr

/-- Model of `Resource::file` — a plain constructor, no validation (as in the source). -/
def Resource.file (owner repo reference path : String) : Resource :=
  Resource.File owner repo reference path

/-- Model of `Resource::release` — a plain constructor, no validation (as in the source). -/
def Resource.release (owner repo tag name : String) : Resource :=
  Resource.Release owner repo tag name

/-- Model of `Resource::url` from `src/resource.rs`: per-proxy URL templates; `None`
for a `Release` under `Jsdelivr` or `Statically`. -/
def Resource.url (r : Resource) (proxy_type : Proxy) : Option String :=
  match r with
  | .File owner repo reference path =>
    some (match proxy_type with
      | .GitHub =>
        "https://github.com/" ++ owner ++ "/" ++ repo ++ "/raw/" ++
          reference ++ "/" ++ path
      | .Xget =>
        "https://xget.xi-xu.me/gh/" ++ owner ++ "/" ++ repo ++ "/raw/" ++
          reference ++ "/" ++ path
      | .GhProxy =>
        "https://gh-proxy.com/https://github.com/" ++ owner ++ "/" ++ repo ++
          "/raw/" ++ reference ++ "/" ++ path
      | .Jsdelivr =>
        "https://cdn.jsdelivr.net/gh/" ++ owner ++ "/" ++ repo ++ "@" ++
          reference ++ "/" ++ path
      | .Statically =>
        "https://cdn.statically.io/gh/" ++ owner ++ "/" ++ repo ++ "/" ++
          reference ++ "/" ++ path)
  | .Release owner repo tag name =>
    match proxy_type with
    | .GitHub =>
      some ("https://github.com/" ++ owner ++ "/" ++ repo ++
        "/releases/download/" ++ tag ++ "/" ++ name)
    | .Xget =>
      some ("https://xget.xi-xu.me/gh/" ++ owner ++ "/" ++ repo ++
        "/releases/download/" ++ tag ++ "/" ++ name)
    | .GhProxy =>
      some ("https://gh-proxy.com/https://github.com/" ++ owner ++ "/" ++
        repo ++ "/releases/download/" ++ tag ++ "/" ++ name)
    | .Jsdelivr => none
    | .Statically => none

/-- Segment-wise embedding of `raw_file_regex`
(`^https?://github\.com/([^/]+)/([^/]+)/raw/(.+)$`): the split of a
matching string is `scheme :: "" :: "github.com" :: owner :: repo ::
"raw" :: rest-segments` with `owner`, `repo` non-empty and a non-empty
remainder; captures are `(owner, repo, rest)`. -/
def rawFileCaptures (v : String) : Option (String × String × String) :=
  let parts := splitSlash v
  if 6 ≤ parts.length ∧
      (parts.getD 0 "" = "https:" ∨ parts.getD 0 "" = "http:") ∧
      parts.getD 1 "" = "" ∧ parts.getD 2 "" = "github.com" ∧
      parts.getD 3 "" ≠ "" ∧ parts.getD 4 "" ≠ "" ∧
      parts.getD 5 "" = "raw" ∧ joinSlash (parts.drop 6) ≠ "" then
    some (parts.getD 3 "", parts.getD 4 "", joinSlash (parts.drop 6))
  else none

/-- Segment-wise embedding of `blob_file_regex` (same as `raw_file_regex`
with `blob` in place of `raw`). -/
def blobFileCaptures (v : String) : Option (String × String × String) :=
  let parts := splitSlash v
  if 6 ≤ parts.length ∧
      (parts.getD 0 "" = "https:" ∨ parts.getD 0 "" = "http:") ∧
      parts.getD 1 "" = "" ∧ parts.getD 2 "" = "github.com" ∧
      parts.getD 3 "" ≠ "" ∧ parts.getD 4 "" ≠ "" ∧
      parts.getD 5 "" = "blob" ∧ joinSlash (parts.drop 6) ≠ "" then
    some (parts.getD 3 "", parts.getD 4 "", joinSlash (parts.drop 6))
  else none

/-- Segment-wise embedding of `release_download_regex`
(`^https?://github\.com/([^/]+)/([^/]+)/releases/download/([^/]+)/(.+)$`):
tag is one non-empty segment, the filename capture is the (possibly
`/`-containing) non-empty remainder. -/
def releaseDownloadCaptures (v : String) :
    Option (String × String × String × String) :=
  let parts := splitSlash v
  if 8 ≤ parts.length ∧
      (parts.getD 0 "" = "https:" ∨ parts.getD 0 "" = "http:") ∧
      parts.getD 1 "" = "" ∧ parts.getD 2 "" = "github.com" ∧
      parts.getD 3 "" ≠ "" ∧ parts.getD 4 "" ≠ "" ∧
      parts.getD 5 "" = "releases" ∧ parts.getD 6 "" = "download" ∧
      parts.getD 7 "" ≠ "" ∧ joinSlash (parts.drop 8) ≠ "" then
    some (parts.getD 3 "", parts.getD 4 "", parts.getD 7 "",
      joinSlash (parts.drop 8))
  else none

/-- Model of `split_reference_and_path` from `src/resource.rs`: split the post-marker
remainder into git reference and file path.  The `refs/`-prefixed branch
(at least 4 segments) rejects an empty path; the generic branch does not. -/
def split_reference_and_path (rest : String) :
    Except ConversionError (String × String) :=
  let parts := splitSlash rest
  if parts = [] then
    .error (.ParseError "Missing reference and path")
  else if 4 ≤ parts.length ∧ parts.getD 0 "" = "refs" then
    let reference :=
      parts.getD 0 "" ++ "/" ++ parts.getD 1 "" ++ "/" ++ parts.getD 2 ""
    let path := joinSlash (parts.drop 3)
    if path = "" then .error (.ParseError "Missing file path")
    else .ok (reference, path)
  else if 2 ≤ parts.length then
    .ok (parts.getD 0 "", joinSlash (parts.drop 1))
  else
    .error (.ParseError "Invalid reference/path format")

/-- Model of `TryFrom<&str> for Resource` from `src/resource.rs`: trim, then try the
raw, blob and releases/download shapes in that order. -/
def Resource.tryFrom (value : String) : Except ConversionError Resource :=
  let v := trimChars value
  match rawFileCaptures v with
  | some (owner, repo, rest) =>
    match split_reference_and_path rest with
    | .ok (reference, path) => .ok (.File owner repo reference path)
    | .error e => .error e
  | none =>
    match blobFileCaptures v with
    | some (owner, repo, rest) =>
      match split_reference_and_path rest with
      | .ok (reference, path) => .ok (.File owner repo reference path)
      | .error e => .error e
    | none =>
      match releaseDownloadCaptures v with
      | some (owner, repo, tag, filename) =>
        .ok (.Release owner repo tag filename)
      | none => .error (.InvalidUrl v)

example : Resource.tryFrom "https://github.com/easy-install/easy-install/raw/main/install.sh" =
    .ok (.File "easy-install" "easy-install" "main" "install.sh") := by decide

example : Resource.tryFrom "https://github.com/o/r/raw/refs/heads/main/a/b" =
    .ok (.File "o" "r" "refs/heads/main" "a/b") := by decide

example : Resource.tryFrom "https://github.com/o/r/blob/main/f.sh" =
    .ok (.File "o" "r" "main" "f.sh") := by decide

example : Resource.tryFrom
    "https://github.com/fish-shell/fish-shell/releases/download/4.1.2/fish-4.1.2-linux-aarch64.tar.xz" =
    .ok (.Release "fish-shell" "fish-shell" "4.1.2"
      "fish-4.1.2-linux-aarch64.tar.xz") := by decide

example : Resource.tryFrom "https://example.com/file.sh" =
    .error (.InvalidUrl "https://example.com/file.sh") := by decide

example : Resource.tryFrom "  https://github.com/o/r/raw/main/f.sh " =
    .ok (.File "o" "r" "main" "f.sh") := by decide

example : Resource.tryFrom "https://github.com/o/r/raw/main/" =
    .ok (.File "o" "r" "main" "") := by decide

example : Resource.tryFrom "https://github.com/o/r/raw/refs/heads/main" =
    .ok (.File "o" "r" "refs" "heads/main") := by decide

example : Resource.tryFrom "https://github.com/o/r/raw/refs/heads/main/" =
    .error (.ParseError "Missing file path") := by decide

example : Resource.tryFrom "https://github.com/o/r/releases/download/v1/a/b" =
    .ok (.Release "o" "r" "v1" "a/b") := by decide

example : (Resource.File "easy-install" "easy-install" "main" "install.sh").url .Xget =
    some "https://xget.xi-xu.me/gh/easy-install/easy-install/raw/main/install.sh" := by decide

example : Proxy.fromStr "XGET" = .ok .Xget := by decide

example : Proxy.fromStr "statically" = .error (.InvalidProxyType "statically") := by decide

/-! ## Basic string and segment lemmas -/

theorem strext {a b : String} (h : a.data = b.data) : a = b := by
  cases a; cases b; simp_all

theorem data_append (a b : String) : (a ++ b).data = a.data ++ b.data := rfl

theorem data_mk (l : List Char) : (String.mk l).data = l := rfl

theorem mk_data (s : String) : String.mk s.data = s := rfl

theorem sapp_assoc (a b c : String) : a ++ b ++ c = a ++ (b ++ c) := by
  apply strext; simp [data_append]

theorem app_slash_ne_empty (a b : String) : a ++ "/" ++ b ≠ "" := by
  intro h
  have h2 : (a ++ "/" ++ b).data = ("" : String).data := congrArg String.data h
  simp [data_append] at h2

theorem splitChars_cons (c : Char) (cs : List Char) :
    splitChars (c :: cs) = match splitChars cs with
      | [] => [[]]
      | s :: rest => if c = '/' then [] :: s :: rest else (c :: s) :: rest := rfl

theorem splitChars_ne_nil (l : List Char) : splitChars l ≠ [] := by
  cases l with
  | nil => simp [splitChars]
  | cons c cs =>
    rw [splitChars_cons]
    cases h : splitChars cs with
    | nil => simp
    | cons s rest =>
      dsimp only
      split <;> simp

theorem joinChars_cons2 (s t : List Char) (r : List (List Char)) :
    joinChars (s :: t :: r) = s ++ '/' :: joinChars (t :: r) := rfl

theorem joinChars_splitChars (l : List Char) : joinChars (splitChars l) = l := by
  induction l with
  | nil => rfl
  | cons c cs ih =>
    rw [splitChars_cons]
    cases h : splitChars cs with
    | nil => exact absurd h (splitChars_ne_nil cs)
    | cons s rest =>
      rw [h] at ih
      dsimp only
      by_cases hc : c = '/'
      · subst hc
        rw [if_pos rfl, joinChars_cons2, ih]
        rfl
      · rw [if_neg hc]
        cases rest with
        | nil =>
          simp only [joinChars] at ih ⊢
          rw [ih]
        | cons t r =>
          rw [joinChars_cons2]
          rw [joinChars_cons2] at ih
          rw [List.cons_append, ih]

theorem splitChars_append :
    ∀ (a : List Char), '/' ∉ a → ∀ b : List Char,
      splitChars (a ++ '/' :: b) = a :: splitChars b := by
  intro a
  induction a with
  | nil =>
    intro _ b
    simp only [List.nil_append]
    rw [splitChars_cons]
    cases h : splitChars b with
    | nil => exact absurd h (splitChars_ne_nil b)
    | cons s rest => simp
  | cons c a1 ih =>
    intro ha b
    have hc : c ≠ '/' := fun h => ha (h ▸ List.mem_cons_self c a1)
    have ha1 : '/' ∉ a1 := fun h => ha (List.mem_cons_of_mem c h)
    simp only [List.cons_append]
    rw [splitChars_cons, ih ha1 b]
    simp [hc]

theorem splitSlash_ne_nil (s : String) : splitSlash s ≠ [] := by
  unfold splitSlash
  cases h : splitChars s.data with
  | nil => exact absurd h (splitChars_ne_nil _)
  | cons a t => simp

theorem joinSlash_splitSlash (s : String) : joinSlash (splitSlash s) = s := by
  unfold joinSlash splitSlash
  rw [List.map_map]
  have hcomp : (String.data ∘ String.mk) = id := rfl
  rw [hcomp, List.map_id, joinChars_splitChars, mk_data]

theorem splitSlash_append (seg t : String) (h : '/' ∉ seg.data) :
    splitSlash (seg ++ "/" ++ t) = seg :: splitSlash t := by
  unfold splitSlash
  have hd : (seg ++ "/" ++ t).data = seg.data ++ '/' :: t.data := by
    simp [data_append]
  rw [hd, splitChars_append seg.data h t.data]
  simp [mk_data]

theorem joinSlash_cons (a : String) (l : List String) (h : l ≠ []) :
    joinSlash (a :: l) = a ++ "/" ++ joinSlash l := by
  cases l with
  | nil => exact absurd rfl h
  | cons b t =>
    apply strext
    unfold joinSlash
    simp only [List.map_cons, joinChars_cons2, data_append, data_mk]
    simp


/-! ## Canonical URL shapes -/

theorem url_raw_assoc (o r t : String) :
    "https://github.com/" ++ o ++ "/" ++ r ++ "/raw/" ++ t =
    "https:" ++ "/" ++ ("" ++ "/" ++ ("github.com" ++ "/" ++
      (o ++ "/" ++ (r ++ "/" ++ ("raw" ++ "/" ++ t))))) := by
  apply strext; simp [data_append]

theorem url_blob_assoc (o r t : String) :
    "https://github.com/" ++ o ++ "/" ++ r ++ "/blob/" ++ t =
    "https:" ++ "/" ++ ("" ++ "/" ++ ("github.com" ++ "/" ++
      (o ++ "/" ++ (r ++ "/" ++ ("blob" ++ "/" ++ t))))) := by
  apply strext; simp [data_append]

theorem url_release_assoc (o r tg f : String) :
    "https://github.com/" ++ o ++ "/" ++ r ++ "/releases/download/" ++ tg ++ "/" ++ f =
    "https:" ++ "/" ++ ("" ++ "/" ++ ("github.com" ++ "/" ++
      (o ++ "/" ++ (r ++ "/" ++ ("releases" ++ "/" ++
        ("download" ++ "/" ++ (tg ++ "/" ++ f))))))) := by
  apply strext; simp [data_append]

theorem splitSlash_raw_url (o r t : String) (ho : '/' ∉ o.data)
    (hr : '/' ∉ r.data) :
    splitSlash ("https://github.com/" ++ o ++ "/" ++ r ++ "/raw/" ++ t) =
      "https:" :: "" :: "github.com" :: o :: r :: "raw" :: splitSlash t := by
  rw [url_raw_assoc]
  rw [splitSlash_append "https:" _ (by decide)]
  rw [splitSlash_append "" _ (by decide)]
  rw [splitSlash_append "github.com" _ (by decide)]
  rw [splitSlash_append o _ ho]
  rw [splitSlash_append r _ hr]
  rw [splitSlash_append "raw" _ (by decide)]

theorem splitSlash_blob_url (o r t : String) (ho : '/' ∉ o.data)
    (hr : '/' ∉ r.data) :
    splitSlash ("https://github.com/" ++ o ++ "/" ++ r ++ "/blob/" ++ t) =
      "https:" :: "" :: "github.com" :: o :: r :: "blob" :: splitSlash t := by
  rw [url_blob_assoc]
  rw [splitSlash_append "https:" _ (by decide)]
  rw [splitSlash_append "" _ (by decide)]
  rw [splitSlash_append "github.com" _ (by decide)]
  rw [splitSlash_append o _ ho]
  rw [splitSlash_append r _ hr]
  rw [splitSlash_append "blob" _ (by decide)]

theorem splitSlash_release_url (o r tg f : String) (ho : '/' ∉ o.data)
    (hr : '/' ∉ r.data) (htg : '/' ∉ tg.data) :
    splitSlash ("https://github.com/" ++ o ++ "/" ++ r ++
        "/releases/download/" ++ tg ++ "/" ++ f) =
      "https:" :: "" :: "github.com" :: o :: r :: "releases" :: "download" ::
        tg :: splitSlash f := by
  rw [url_release_assoc]
  rw [splitSlash_append "https:" _ (by decide)]
  rw [splitSlash_append "" _ (by decide)]
  rw [splitSlash_append "github.com" _ (by decide)]
  rw [splitSlash_append o _ ho]
  rw [splitSlash_append r _ hr]
  rw [splitSlash_append "releases" _ (by decide)]
  rw [splitSlash_append "download" _ (by decide)]
  rw [splitSlash_append tg _ htg]

/-! ## List shape helpers -/

theorem exists_cons2 {α : Type} {l : List α} (h : 2 ≤ l.length) :
    ∃ a b t, l = a :: b :: t := by
  match l, h with
  | a :: b :: t, _ => exact ⟨a, b, t, rfl⟩
  | [], h => simp at h
  | [a], h => simp at h

theorem exists_cons4 {α : Type} {l : List α} (h : 4 ≤ l.length) :
    ∃ a b c d t, l = a :: b :: c :: d :: t := by
  match l, h with
  | a :: b :: c :: d :: t, _ => exact ⟨a, b, c, d, t, rfl⟩
  | [], h => simp at h
  | [a], h => simp at h
  | [a, b], h => simp at h
  | [a, b, c], h => simp at h

theorem exists_cons6 {α : Type} {l : List α} (h : 6 ≤ l.length) :
    ∃ a b c d e f t, l = a :: b :: c :: d :: e :: f :: t := by
  match l, h with
  | a :: b :: c :: d :: e :: f :: t, _ => exact ⟨a, b, c, d, e, f, t, rfl⟩
  | [], h => simp at h
  | [a], h => simp at h
  | [a, b], h => simp at h
  | [a, b, c], h => simp at h
  | [a, b, c, d], h => simp at h
  | [a, b, c, d, e], h => simp at h

theorem exists_cons8 {α : Type} {l : List α} (h : 8 ≤ l.length) :
    ∃ a b c d e f g k t, l = a :: b :: c :: d :: e :: f :: g :: k :: t := by
  match l, h with
  | a :: b :: c :: d :: e :: f :: g :: k :: t, _ =>
    exact ⟨a, b, c, d, e, f, g, k, t, rfl⟩
  | [], h => simp at h
  | [a], h => simp at h
  | [a, b], h => simp at h
  | [a, b, c], h => simp at h
  | [a, b, c, d], h => simp at h
  | [a, b, c, d, e], h => simp at h
  | [a, b, c, d, e, f], h => simp at h
  | [a, b, c, d, e, f, g], h => simp at h


/-! ## Characterizations of the reference/path split -/

theorem srp_refs {rest p1 p2 p3 : String} {t : List String}
    (h : splitSlash rest = "refs" :: p1 :: p2 :: p3 :: t) :
    split_reference_and_path rest =
      if joinSlash (p3 :: t) = "" then
        .error (.ParseError "Missing file path")
      else .ok ("refs" ++ "/" ++ p1 ++ "/" ++ p2, joinSlash (p3 :: t)) := by
  simp [split_reference_and_path, h]

theorem srp_generic {rest p0 p1 : String} {t : List String}
    (h : splitSlash rest = p0 :: p1 :: t)
    (hne : ¬(4 ≤ (p0 :: p1 :: t).length ∧ p0 = "refs")) :
    split_reference_and_path rest = .ok (p0, joinSlash (p1 :: t)) := by
  simp only [split_reference_and_path, h]
  rw [if_neg (by simp), if_neg (by simpa using hne), if_pos (by simp)]
  simp

theorem srp_single {rest p0 : String} (h : splitSlash rest = [p0]) :
    split_reference_and_path rest =
      .error (.ParseError "Invalid reference/path format") := by
  simp [split_reference_and_path, h]

theorem srp_ok_join {rest reference path : String}
    (h : split_reference_and_path rest = .ok (reference, path)) :
    reference ++ "/" ++ path = rest := by
  rcases hs : splitSlash rest with _ | ⟨p0, t⟩
  · exact absurd hs (splitSlash_ne_nil rest)
  rcases t with _ | ⟨p1, t1⟩
  · rw [srp_single hs] at h
    exact absurd h (by simp)
  by_cases hrefs : 4 ≤ (p0 :: p1 :: t1).length ∧ p0 = "refs"
  · obtain ⟨hlen, hp0⟩ := hrefs
    subst hp0
    obtain ⟨c, d, t2, ht1⟩ : ∃ c d t2, t1 = c :: d :: t2 := by
      have h2 : 2 ≤ t1.length := by simpa using hlen
      exact exists_cons2 h2
    subst ht1
    rw [srp_refs hs] at h
    by_cases hp : joinSlash (d :: t2) = ""
    · rw [if_pos hp] at h
      exact absurd h (by simp)
    · rw [if_neg hp] at h
      obtain ⟨h1, h2⟩ :
          "refs" ++ "/" ++ p1 ++ "/" ++ c = reference ∧
            joinSlash (d :: t2) = path := by simpa using h
      subst h1
      subst h2
      rw [← joinSlash_splitSlash rest, hs]
      rw [joinSlash_cons "refs" _ (by simp), joinSlash_cons p1 _ (by simp),
        joinSlash_cons c _ (by simp)]
      simp [sapp_assoc]
  · rw [srp_generic hs hrefs] at h
    obtain ⟨h1, h2⟩ : p0 = reference ∧ joinSlash (p1 :: t1) = path := by
      simpa using h
    subst h1
    subst h2
    rw [← joinSlash_cons p0 (p1 :: t1) (by simp), ← hs, joinSlash_splitSlash]

/-! ## Extraction lemmas for the regex-capture embeddings -/

theorem rawFileCaptures_some {v o r rest : String}
    (h : rawFileCaptures v = some (o, r, rest)) :
    ∃ s0 t, splitSlash v = s0 :: "" :: "github.com" :: o :: r :: "raw" :: t ∧
      (s0 = "https:" ∨ s0 = "http:") ∧ o ≠ "" ∧ r ≠ "" ∧
      rest = joinSlash t ∧ rest ≠ "" := by
  unfold rawFileCaptures at h
  dsimp only at h
  split at h
  case isTrue hcond =>
    obtain ⟨hlen, hsch, h1, h2, h3, h4, h5, h6⟩ := hcond
    obtain ⟨a, b, c, d, e, f, t, hshape⟩ := exists_cons6 hlen
    rw [hshape] at hsch h1 h2 h3 h4 h5 h6 h
    simp only [List.getD_cons_zero, List.getD_cons_succ, List.drop_succ_cons,
      List.drop_zero] at hsch h1 h2 h3 h4 h5 h6 h
    obtain ⟨rfl, rfl, rfl⟩ : d = o ∧ e = r ∧ joinSlash t = rest := by
      simpa using h
    subst h1
    subst h2
    subst h5
    exact ⟨a, t, hshape, hsch, h3, h4, rfl, h6⟩
  case isFalse => simp at h

theorem blobFileCaptures_some {v o r rest : String}
    (h : blobFileCaptures v = some (o, r, rest)) :
    ∃ s0 t, splitSlash v = s0 :: "" :: "github.com" :: o :: r :: "blob" :: t ∧
      (s0 = "https:" ∨ s0 = "http:") ∧ o ≠ "" ∧ r ≠ "" ∧
      rest = joinSlash t ∧ rest ≠ "" := by
  unfold blobFileCaptures at h
  dsimp only at h
  split at h
  case isTrue hcond =>
    obtain ⟨hlen, hsch, h1, h2, h3, h4, h5, h6⟩ := hcond
    obtain ⟨a, b, c, d, e, f, t, hshape⟩ := exists_cons6 hlen
    rw [hshape] at hsch h1 h2 h3 h4 h5 h6 h
    simp only [List.getD_cons_zero, List.getD_cons_succ, List.drop_succ_cons,
      List.drop_zero] at hsch h1 h2 h3 h4 h5 h6 h
    obtain ⟨rfl, rfl, rfl⟩ : d = o ∧ e = r ∧ joinSlash t = rest := by
      simpa using h
    subst h1
    subst h2
    subst h5
    exact ⟨a, t, hshape, hsch, h3, h4, rfl, h6⟩
  case isFalse => simp at h

theorem releaseDownloadCaptures_some {v o r tg f : String}
    (h : releaseDownloadCaptures v = some (o, r, tg, f)) :
    ∃ s0 t, splitSlash v = s0 :: "" :: "github.com" :: o :: r :: "releases" ::
        "download" :: tg :: t ∧
      (s0 = "https:" ∨ s0 = "http:") ∧ o ≠ "" ∧ r ≠ "" ∧ tg ≠ "" ∧
      f = joinSlash t ∧ f ≠ "" := by
  unfold releaseDownloadCaptures at h
  dsimp only at h
  split at h
  case isTrue hcond =>
    obtain ⟨hlen, hsch, h1, h2, h3, h4, h5, h6, h7, h8⟩ := hcond
    obtain ⟨a, b, c, d, e, f1, g, k, t, hshape⟩ := exists_cons8 hlen
    rw [hshape] at hsch h1 h2 h3 h4 h5 h6 h7 h8 h
    simp only [List.getD_cons_zero, List.getD_cons_succ, List.drop_succ_cons,
      List.drop_zero] at hsch h1 h2 h3 h4 h5 h6 h7 h8 h
    obtain ⟨rfl, rfl, rfl, rfl⟩ : d = o ∧ e = r ∧ k = tg ∧ joinSlash t = f := by
      simpa using h
    subst h1
    subst h2
    subst h5
    subst h6
    exact ⟨a, t, hshape, hsch, h3, h4, h7, rfl, h8⟩
  case isFalse => simp at h

/-! ## Captures on canonically rendered URLs -/

theorem rawFileCaptures_canonical {o r t : String} (ho : '/' ∉ o.data)
    (hr : '/' ∉ r.data) (ho2 : o ≠ "") (hr2 : r ≠ "") (ht : t ≠ "") :
    rawFileCaptures ("https://github.com/" ++ o ++ "/" ++ r ++ "/raw/" ++ t) =
      some (o, r, t) := by
  have hsplit := splitSlash_raw_url o r t ho hr
  unfold rawFileCaptures
  rw [hsplit]
  simp [joinSlash_splitSlash, ho2, hr2, ht]

theorem releaseDownloadCaptures_canonical {o r tg f : String}
    (ho : '/' ∉ o.data) (hr : '/' ∉ r.data) (htg : '/' ∉ tg.data)
    (ho2 : o ≠ "") (hr2 : r ≠ "") (htg2 : tg ≠ "") (hf : f ≠ "") :
    releaseDownloadCaptures ("https://github.com/" ++ o ++ "/" ++ r ++
        "/releases/download/" ++ tg ++ "/" ++ f) = some (o, r, tg, f) := by
  have hsplit := splitSlash_release_url o r tg f ho hr htg
  unfold releaseDownloadCaptures
  rw [hsplit]
  simp [joinSlash_splitSlash, ho2, hr2, htg2, hf]

theorem rawFileCaptures_release_url {o r tg f : String} (ho : '/' ∉ o.data)
    (hr : '/' ∉ r.data) (htg : '/' ∉ tg.data) :
    rawFileCaptures ("https://github.com/" ++ o ++ "/" ++ r ++
        "/releases/download/" ++ tg ++ "/" ++ f) = none := by
  have hsplit := splitSlash_release_url o r tg f ho hr htg
  unfold rawFileCaptures
  rw [hsplit]
  simp

theorem blobFileCaptures_release_url {o r tg f : String} (ho : '/' ∉ o.data)
    (hr : '/' ∉ r.data) (htg : '/' ∉ tg.data) :
    blobFileCaptures ("https://github.com/" ++ o ++ "/" ++ r ++
        "/releases/download/" ++ tg ++ "/" ++ f) = none := by
  have hsplit := splitSlash_release_url o r tg f ho hr htg
  unfold blobFileCaptures
  rw [hsplit]
  simp

/-! ## Lowercasing lemmas -/

theorem toNat_ofNat_small {n : Nat} (h : n < 55296) :
    (Char.ofNat n).toNat = n := by
  unfold Char.ofNat
  rw [dif_pos (Or.inl h)]
  simp [Char.ofNatAux, Char.toNat, UInt32.toNat, BitVec.toNat_ofNatLt]

theorem charToLower_idem (c : Char) :
    charToLower (charToLower c) = charToLower c := by
  unfold charToLower
  by_cases h : 65 ≤ c.toNat ∧ c.toNat ≤ 90
  · rw [if_pos h]
    have h32 : (Char.ofNat (c.toNat + 32)).toNat = c.toNat + 32 :=
      toNat_ofNat_small (by omega)
    rw [if_neg (by rw [h32]; omega)]
  · rw [if_neg h, if_neg h]

theorem toLowerStr_idem (s : String) :
    toLowerStr (toLowerStr s) = toLowerStr s := by
  unfold toLowerStr
  simp [data_mk, List.map_map, Function.comp_def, charToLower_idem]

/-! ## Claim theorems -/

/-- C3: for every Release resource, rendering under Jsdelivr (CDN-C) or
Statically (CDN-D) returns `none`, and rendering under GitHub (native),
GhProxy (mirror-A) or Xget (mirror-B) returns `some` of a URL; the `none`
outcome is an `Option` value, not an error. -/
theorem c3_release_capability_gating (owner repo tag name : String) :
    (Resource.Release owner repo tag name).url .Jsdelivr = none ∧
    (Resource.Release owner repo tag name).url .Statically = none ∧
    ((Resource.Release owner repo tag name).url .GitHub).isSome = true ∧
    ((Resource.Release owner repo tag name).url .GhProxy).isSome = true ∧
    ((Resource.Release owner repo tag name).url .Xget).isSome = true :=
  ⟨rfl, rfl, rfl, rfl, rfl⟩

/-- C10: for every File resource and every proxy in the enumeration,
rendering returns `some` of a URL; a `none` render result is only ever
possible for Release resources. -/
theorem c10_file_render_total :
    (∀ (owner repo reference path : String) (proxy : Proxy),
      ((Resource.File owner repo reference path).url proxy).isSome = true) ∧
    (∀ (res : Resource) (proxy : Proxy), res.url proxy = none →
      ∃ owner repo tag name, res = Resource.Release owner repo tag name) := by
  constructor
  · intro o r ref p proxy
    cases proxy <;> rfl
  · intro res proxy h
    cases res with
    | File o r ref p => cases proxy <;> simp [Resource.url] at h
    | Release o r t n => exact ⟨o, r, t, n, rfl⟩

/-- C10 witness: concrete instances of both conjuncts of
`c10_file_render_total`. -/
theorem c10_witness :
    (((Resource.File "o" "r" "main" "f.sh").url .Jsdelivr).isSome = true) ∧
    (∃ owner repo tag name,
      Resource.Release "o" "r" "v1" "a.tgz" =
        Resource.Release owner repo tag name) :=
  ⟨c10_file_render_total.1 "o" "r" "main" "f.sh" .Jsdelivr,
    c10_file_render_total.2 (Resource.Release "o" "r" "v1" "a.tgz")
      .Jsdelivr rfl⟩

/-- C8: divergence around the Statically (CDN-D) proxy.  The renderer of
`src/resource.rs` supports it with the claimed templates (File → the
`cdn.statically.io` URL, Release → `none`), but the identifier parser of
`src/proxy.rs` does not recognize `statically` in any casing: its `Proxy`
enum lacks the variant, even though `src/error.rs`'s supported-types
message and `src/cli.rs`'s usage text both list `statically`. -/
theorem c8_statically_divergence :
    Proxy.fromStr "statically" = .error (.InvalidProxyType "statically") ∧
    Proxy.fromStr "STATICALLY" = .error (.InvalidProxyType "STATICALLY") ∧
    (∀ owner repo reference path : String,
      (Resource.File owner repo reference path).url .Statically =
        some ("https://cdn.statically.io/gh/" ++ owner ++ "/" ++ repo ++
          "/" ++ reference ++ "/" ++ path)) ∧
    (∀ owner repo tag name : String,
      (Resource.Release owner repo tag name).url .Statically = none) :=
  ⟨by decide, by decide, fun _ _ _ _ => rfl, fun _ _ _ _ => rfl⟩

/-- C9 counterexample: parsing is not literally "the same result" as
parsing the lowercase form — for an unrecognized identifier the error
payload keeps the original casing, so `fromStr "FOO" ≠ fromStr "foo"`. -/
theorem c9_counterexample :
    toLowerStr "FOO" = "foo" ∧ Proxy.fromStr "FOO" ≠ Proxy.fromStr "foo" := by
  decide

/-- C9 (amended): proxy identifier parsing is case-insensitive up to the
error payload: parsing the lowercased input takes the same branch as
parsing the input, and on success returns the same proxy; an unrecognized
input yields `InvalidProxyType` carrying the respective original input.
In particular `fromStr "XGET"` and `fromStr "xget"` both yield `Xget`. -/
theorem c9_case_insensitive_amended (s : String) :
    Proxy.fromStr (toLowerStr s) =
      match Proxy.fromStr s with
      | .ok p => .ok p
      | .error _ => .error (.InvalidProxyType (toLowerStr s)) := by
  unfold Proxy.fromStr
  rw [toLowerStr_idem]
  by_cases h1 : toLowerStr s = "github"
  · simp [h1]
  by_cases h2 : toLowerStr s = "gh-proxy"
  · simp [h1, h2]
  by_cases h3 : toLowerStr s = "xget"
  · simp [h1, h2, h3]
  by_cases h4 : toLowerStr s = "jsdelivr"
  · simp [h1, h2, h3, h4]
  simp [h1, h2, h3, h4]

/-- C7: a File-shape URL whose post-marker rest is exactly
`refs/heads/main` (3 segments) does not use the refs rule: it falls
through to the generic split and parses with reference `refs` and path
`heads/main`. -/
theorem c7_refs_three_segments (o r : String) (ho : '/' ∉ o.data)
    (hr : '/' ∉ r.data) (ho2 : o ≠ "") (hr2 : r ≠ "")
    (htrim : trimChars ("https://github.com/" ++ o ++ "/" ++ r ++ "/raw/" ++
        "refs/heads/main") =
      "https://github.com/" ++ o ++ "/" ++ r ++ "/raw/" ++ "refs/heads/main") :
    Resource.tryFrom ("https://github.com/" ++ o ++ "/" ++ r ++ "/raw/" ++
        "refs/heads/main") = .ok (.File o r "refs" "heads/main") := by
  simp only [Resource.tryFrom, htrim]
  rw [rawFileCaptures_canonical ho hr ho2 hr2 (by decide)]
  dsimp only
  have hsplit : splitSlash "refs/heads/main" = ["refs", "heads", "main"] := by
    decide
  rw [srp_generic hsplit (by decide)]
  have hjoin : joinSlash ["heads", "main"] = "heads/main" := by decide
  rw [hjoin]

/-- C7 witness: `c7_refs_three_segments` at a concrete owner and repo. -/
theorem c7_witness :
    Resource.tryFrom ("https://github.com/" ++ "o" ++ "/" ++ "r" ++ "/raw/" ++
        "refs/heads/main") = .ok (.File "o" "r" "refs" "heads/main") :=
  c7_refs_three_segments "o" "r" (by decide) (by decide) (by decide)
    (by decide) (by decide)

/-- Helper: parsing a canonically rendered releases/download URL (slash-free
non-empty owner, repo, tag; non-empty filename; no surrounding whitespace)
recovers the Release fields, with the filename taken as the entire
remainder after the tag. -/
theorem tryFrom_release_canonical {o r tg f : String} (ho : '/' ∉ o.data)
    (hr : '/' ∉ r.data) (htg : '/' ∉ tg.data) (ho2 : o ≠ "") (hr2 : r ≠ "")
    (htg2 : tg ≠ "") (hf : f ≠ "")
    (htrim : trimChars ("https://github.com/" ++ o ++ "/" ++ r ++
        "/releases/download/" ++ tg ++ "/" ++ f) =
      "https://github.com/" ++ o ++ "/" ++ r ++ "/releases/download/" ++
        tg ++ "/" ++ f) :
    Resource.tryFrom ("https://github.com/" ++ o ++ "/" ++ r ++
        "/releases/download/" ++ tg ++ "/" ++ f) = .ok (.Release o r tg f) := by
  simp only [Resource.tryFrom, htrim]
  rw [rawFileCaptures_release_url ho hr htg]
  dsimp only
  rw [blobFileCaptures_release_url ho hr htg]
  dsimp only
  rw [releaseDownloadCaptures_canonical ho hr htg ho2 hr2 htg2 hf]

/-- Helper: parsing a canonically rendered raw-file URL (slash-free
non-empty owner and repo, non-empty path, no surrounding whitespace)
recovers the File fields, provided the reference is a single slash-free
segment other than `refs`, or has the form `refs/<a>/<b>` with `a`, `b`
slash-free. -/
theorem tryFrom_raw_canonical {o r ref p : String} (ho : '/' ∉ o.data)
    (hr : '/' ∉ r.data) (ho2 : o ≠ "") (hr2 : r ≠ "") (hp : p ≠ "")
    (href : ('/' ∉ ref.data ∧ ref ≠ "refs") ∨
      (∃ a b, '/' ∉ a.data ∧ '/' ∉ b.data ∧
        ref = "refs" ++ "/" ++ a ++ "/" ++ b))
    (htrim : trimChars ("https://github.com/" ++ o ++ "/" ++ r ++ "/raw/" ++
        ref ++ "/" ++ p) =
      "https://github.com/" ++ o ++ "/" ++ r ++ "/raw/" ++ ref ++ "/" ++ p) :
    Resource.tryFrom ("https://github.com/" ++ o ++ "/" ++ r ++ "/raw/" ++
        ref ++ "/" ++ p) = .ok (.File o r ref p) := by
  have hassoc : "https://github.com/" ++ o ++ "/" ++ r ++ "/raw/" ++ ref ++
      "/" ++ p =
      "https://github.com/" ++ o ++ "/" ++ r ++ "/raw/" ++ (ref ++ "/" ++ p) := by
    simp [sapp_assoc]
  rw [hassoc] at htrim ⊢
  simp only [Resource.tryFrom, htrim]
  rw [rawFileCaptures_canonical ho hr ho2 hr2 (app_slash_ne_empty ref p)]
  dsimp only
  rcases hq : splitSlash p with _ | ⟨q0, qt⟩
  · exact absurd hq (splitSlash_ne_nil p)
  have hjj : joinSlash (q0 :: qt) = p := by rw [← hq, joinSlash_splitSlash]
  rcases href with ⟨hrefslash, hrefne⟩ | ⟨a, b, ha, hb, rfl⟩
  · have hsplit : splitSlash (ref ++ "/" ++ p) = ref :: q0 :: qt := by
      rw [splitSlash_append ref p hrefslash, hq]
    rw [srp_generic hsplit (fun hc => hrefne hc.2), hjj]
  · have hassoc2 : "refs" ++ "/" ++ a ++ "/" ++ b ++ "/" ++ p =
        "refs" ++ "/" ++ (a ++ "/" ++ (b ++ "/" ++ p)) := by
      simp [sapp_assoc]
    have hsplit : splitSlash ("refs" ++ "/" ++ a ++ "/" ++ b ++ "/" ++ p) =
        "refs" :: a :: b :: q0 :: qt := by
      rw [hassoc2, splitSlash_append "refs" _ (by decide),
        splitSlash_append a _ ha, splitSlash_append b _ hb, hq]
    rw [srp_refs hsplit, hjj, if_neg hp]

/-- C6 counterexample: the Resource parser accepts a releases/download URL
with three trailing segments, folding the extra segment into the asset
name — `v1/a/b` parses with tag `v1` and name `a/b`, and `a/b` is not the
single final segment `b`. -/
theorem c6_counterexample :
    Resource.tryFrom "https://github.com/o/r/releases/download/v1/a/b" =
      .ok (.Release "o" "r" "v1" "a/b") ∧ ("a/b" : String) ≠ "b" := by
  decide

/-- C6 (amended): a releases/download URL parses to a Release whose tag is
the single slash-free segment after `download/` and whose name is the
entire trailing remainder, which may itself contain `/`; deeper nesting
is accepted, with the extra segments folded into the name (for URLs
without surrounding whitespace). -/
theorem c6_release_parse_amended (o r tg f : String) (ho : '/' ∉ o.data)
    (hr : '/' ∉ r.data) (htg : '/' ∉ tg.data) (ho2 : o ≠ "") (hr2 : r ≠ "")
    (htg2 : tg ≠ "") (hf : f ≠ "")
    (htrim : trimChars ("https://github.com/" ++ o ++ "/" ++ r ++
        "/releases/download/" ++ tg ++ "/" ++ f) =
      "https://github.com/" ++ o ++ "/" ++ r ++ "/releases/download/" ++
        tg ++ "/" ++ f) :
    Resource.tryFrom ("https://github.com/" ++ o ++ "/" ++ r ++
        "/releases/download/" ++ tg ++ "/" ++ f) = .ok (.Release o r tg f) :=
  tryFrom_release_canonical ho hr htg ho2 hr2 htg2 hf htrim

/-- C6 witness: `c6_release_parse_amended` at a concrete input whose
filename spans two segments. -/
theorem c6_witness :
    Resource.tryFrom ("https://github.com/" ++ "o" ++ "/" ++ "r" ++
        "/releases/download/" ++ "v1" ++ "/" ++ "a/b") =
      .ok (.Release "o" "r" "v1" "a/b") :=
  c6_release_parse_amended "o" "r" "v1" "a/b" (by decide) (by decide)
    (by decide) (by decide) (by decide) (by decide) (by decide) (by decide)

/-- C5 counterexample: `Resource::file` constructs successfully with all
fields empty, and parsing `…/raw/main/` (trailing slash) succeeds with an
empty path — the generic split branch performs no emptiness check. -/
theorem c5_counterexample :
    Resource.file "" "" "" "" = Resource.File "" "" "" "" ∧
    Resource.tryFrom "https://github.com/o/r/raw/main/" =
      .ok (.File "o" "r" "main" "") := by
  exact ⟨rfl, by decide⟩

/-- C5 (amended): every successfully parsed Resource has non-empty owner
and repo, and a parsed Release additionally has non-empty tag and name;
a parsed File's reference and path, however, may be empty (the generic
split branch does not check them), and direct construction performs no
validation at all. -/
theorem c5_parse_nonempty_amended (u : String) (res : Resource)
    (h : Resource.tryFrom u = .ok res) :
    (∀ owner repo reference path,
      res = Resource.File owner repo reference path →
        owner ≠ "" ∧ repo ≠ "") ∧
    (∀ owner repo tag name,
      res = Resource.Release owner repo tag name →
        owner ≠ "" ∧ repo ≠ "" ∧ tag ≠ "" ∧ name ≠ "") := by
  simp only [Resource.tryFrom] at h
  rcases hraw : rawFileCaptures (trimChars u) with _ | ⟨⟨o, r, rest⟩⟩
  · rw [hraw] at h
    dsimp only at h
    rcases hblob : blobFileCaptures (trimChars u) with _ | ⟨⟨o, r, rest⟩⟩
    · rw [hblob] at h
      dsimp only at h
      rcases hrel : releaseDownloadCaptures (trimChars u) with
        _ | ⟨⟨o, r, tg, f⟩⟩
      · rw [hrel] at h
        exact absurd h (by simp)
      · rw [hrel] at h
        dsimp only at h
        obtain rfl : Resource.Release o r tg f = res := by simpa using h
        obtain ⟨s0, t, _, _, ho, hr, htg, _, hf⟩ :=
          releaseDownloadCaptures_some hrel
        constructor
        · intro o2 r2 ref2 p2 heq
          exact absurd heq (by simp)
        · intro o2 r2 tg2 n2 heq
          obtain ⟨rfl, rfl, rfl, rfl⟩ :
              o = o2 ∧ r = r2 ∧ tg = tg2 ∧ f = n2 := by simpa using heq
          exact ⟨ho, hr, htg, hf⟩
    · rw [hblob] at h
      dsimp only at h
      obtain ⟨s0, t, _, _, ho, hr, _, _⟩ := blobFileCaptures_some hblob
      rcases hsp : split_reference_and_path rest with e | ⟨ref, p⟩
      · rw [hsp] at h
        exact absurd h (by simp)
      · rw [hsp] at h
        dsimp only at h
        obtain rfl : Resource.File o r ref p = res := by simpa using h
        constructor
        · intro o2 r2 ref2 p2 heq
          obtain ⟨rfl, rfl, rfl, rfl⟩ :
              o = o2 ∧ r = r2 ∧ ref = ref2 ∧ p = p2 := by simpa using heq
          exact ⟨ho, hr⟩
        · intro o2 r2 tg2 n2 heq
          exact absurd heq (by simp)
  · rw [hraw] at h
    dsimp only at h
    obtain ⟨s0, t, _, _, ho, hr, _, _⟩ := rawFileCaptures_some hraw
    rcases hsp : split_reference_and_path rest with e | ⟨ref, p⟩
    · rw [hsp] at h
      exact absurd h (by simp)
    · rw [hsp] at h
      dsimp only at h
      obtain rfl : Resource.File o r ref p = res := by simpa using h
      constructor
      · intro o2 r2 ref2 p2 heq
        obtain ⟨rfl, rfl, rfl, rfl⟩ :
            o = o2 ∧ r = r2 ∧ ref = ref2 ∧ p = p2 := by simpa using heq
        exact ⟨ho, hr⟩
      · intro o2 r2 tg2 n2 heq
        exact absurd heq (by simp)

/-- C5 witness: `c5_parse_nonempty_amended` at a concrete parsed Release. -/
theorem c5_witness :
    (∀ owner repo reference path,
      Resource.Release "o" "r" "v1" "a.tgz" =
          Resource.File owner repo reference path →
        owner ≠ "" ∧ repo ≠ "") ∧
    (∀ owner repo tag name,
      Resource.Release "o" "r" "v1" "a.tgz" =
          Resource.Release owner repo tag name →
        owner ≠ "" ∧ repo ≠ "" ∧ tag ≠ "" ∧ name ≠ "") :=
  c5_parse_nonempty_amended
    "https://github.com/o/r/releases/download/v1/a.tgz"
    (Resource.Release "o" "r" "v1" "a.tgz") (by decide)

/-- C4 counterexample: at rest `refs/heads/main/` (4 segments, `refs`
prefix, empty remainder) the split does not return the reference/path
pair described by the claim — it fails with `Missing file path`. -/
theorem c4_counterexample :
    splitSlash "refs/heads/main/" = ["refs", "heads", "main", ""] ∧
    split_reference_and_path "refs/heads/main/" =
      .error (.ParseError "Missing file path") ∧
    split_reference_and_path "refs/heads/main/" ≠
      .ok ("refs/heads/main", "") := by
  decide

/-- C4 (amended): the reference/path split works as claimed — `refs/`
with at least 4 segments takes the first three as reference and the
rejoined remainder as path, otherwise with at least 2 segments the first
segment is the reference and the rejoined remainder the path, otherwise
it fails — with the proviso that in the `refs/` branch an empty rejoined
path is a parse failure rather than a successful split. -/
theorem c4_split_rules_amended :
    (∀ (rest p1 p2 p3 : String) (t : List String),
      splitSlash rest = "refs" :: p1 :: p2 :: p3 :: t →
      split_reference_and_path rest =
        if joinSlash (p3 :: t) = "" then
          .error (.ParseError "Missing file path")
        else .ok ("refs" ++ "/" ++ p1 ++ "/" ++ p2, joinSlash (p3 :: t))) ∧
    (∀ (rest p0 p1 : String) (t : List String),
      splitSlash rest = p0 :: p1 :: t →
      ¬(4 ≤ (p0 :: p1 :: t).length ∧ p0 = "refs") →
      split_reference_and_path rest = .ok (p0, joinSlash (p1 :: t))) ∧
    (∀ (rest p0 : String), splitSlash rest = [p0] →
      split_reference_and_path rest =
        .error (.ParseError "Invalid reference/path format")) :=
  ⟨fun _ _ _ _ _ h => srp_refs h, fun _ _ _ _ h hne => srp_generic h hne,
    fun _ _ h => srp_single h⟩

/-- C4 witness: the three rules of `c4_split_rules_amended` at concrete
rests. -/
theorem c4_witness :
    (split_reference_and_path "refs/heads/main/install.sh" =
      if joinSlash ["install.sh"] = "" then
        .error (.ParseError "Missing file path")
      else .ok ("refs" ++ "/" ++ "heads" ++ "/" ++ "main",
        joinSlash ["install.sh"])) ∧
    (split_reference_and_path "main/src/lib.rs" =
      .ok ("main", joinSlash ["src", "lib.rs"])) ∧
    (split_reference_and_path "main" =
      .error (.ParseError "Invalid reference/path format")) :=
  ⟨c4_split_rules_amended.1 "refs/heads/main/install.sh" "heads" "main"
      "install.sh" [] (by decide),
    c4_split_rules_amended.2.1 "main/src/lib.rs" "main" "src" ["lib.rs"]
      (by decide) (by decide),
    c4_split_rules_amended.2.2 "main" "main" (by decide)⟩

/-- C2 counterexample: a File whose reference contains `/` outside the
`refs/x/y` form satisfies the claim's stated validity conditions (owner
and repo non-empty without `/`, reference and path non-empty), renders
under the native proxy, but parses back to a structurally different
Resource: the slash of `feature/foo` is re-split as reference `feature`
and path `foo/f.sh`. -/
theorem c2_counterexample :
    (Resource.File "o" "r" "feature/foo" "f.sh").url .GitHub =
      some "https://github.com/o/r/raw/feature/foo/f.sh" ∧
    Resource.tryFrom "https://github.com/o/r/raw/feature/foo/f.sh" =
      .ok (.File "o" "r" "feature" "foo/f.sh") ∧
    Resource.File "o" "r" "feature" "foo/f.sh" ≠
      Resource.File "o" "r" "feature/foo" "f.sh" := by
  refine ⟨?_, by decide, by decide⟩
  show some ("https://github.com/" ++ "o" ++ "/" ++ "r" ++ "/raw/" ++
    "feature/foo" ++ "/" ++ "f.sh") = _
  decide

/-- C2 (amended): rendering a valid Resource under the native proxy yields
the canonical source URL, and parsing that URL reconstructs an equal
Resource, provided additionally that the File reference is a single
slash-free segment other than `refs` or has the `refs/<a>/<b>` form with
`a`, `b` slash-free, and that the rendered URL carries no surrounding
whitespace (references with other embedded slashes re-split differently,
as the counterexample shows). -/
theorem c2_roundtrip_amended :
    (∀ o r ref p : String, '/' ∉ o.data → '/' ∉ r.data → o ≠ "" → r ≠ "" →
      p ≠ "" →
      (('/' ∉ ref.data ∧ ref ≠ "refs") ∨
        (∃ a b, '/' ∉ a.data ∧ '/' ∉ b.data ∧
          ref = "refs" ++ "/" ++ a ++ "/" ++ b)) →
      trimChars ("https://github.com/" ++ o ++ "/" ++ r ++ "/raw/" ++ ref ++
          "/" ++ p) =
        "https://github.com/" ++ o ++ "/" ++ r ++ "/raw/" ++ ref ++ "/" ++ p →
      (Resource.File o r ref p).url .GitHub =
        some ("https://github.com/" ++ o ++ "/" ++ r ++ "/raw/" ++ ref ++
          "/" ++ p) ∧
      Resource.tryFrom ("https://github.com/" ++ o ++ "/" ++ r ++ "/raw/" ++
        ref ++ "/" ++ p) = .ok (.File o r ref p)) ∧
    (∀ o r tg n : String, '/' ∉ o.data → '/' ∉ r.data → '/' ∉ tg.data →
      '/' ∉ n.data → o ≠ "" → r ≠ "" → tg ≠ "" → n ≠ "" →
      trimChars ("https://github.com/" ++ o ++ "/" ++ r ++
          "/releases/download/" ++ tg ++ "/" ++ n) =
        "https://github.com/" ++ o ++ "/" ++ r ++ "/releases/download/" ++
          tg ++ "/" ++ n →
      (Resource.Release o r tg n).url .GitHub =
        some ("https://github.com/" ++ o ++ "/" ++ r ++
          "/releases/download/" ++ tg ++ "/" ++ n) ∧
      Resource.tryFrom ("https://github.com/" ++ o ++ "/" ++ r ++
          "/releases/download/" ++ tg ++ "/" ++ n) =
        .ok (.Release o r tg n)) := by
  constructor
  · intro o r ref p ho hr ho2 hr2 hp href htrim
    exact ⟨rfl, tryFrom_raw_canonical ho hr ho2 hr2 hp href htrim⟩
  · intro o r tg n ho hr htg hn ho2 hr2 htg2 hn2 htrim
    exact ⟨rfl, tryFrom_release_canonical ho hr htg ho2 hr2 htg2 hn2 htrim⟩

/-- C2 witness: both conjuncts of `c2_roundtrip_amended` at concrete
resources, one with a plain branch reference and one release asset. -/
theorem c2_witness :
    ((Resource.File "easy-install" "easy-install" "main" "install.sh").url
        .GitHub =
      some ("https://github.com/" ++ "easy-install" ++ "/" ++
        "easy-install" ++ "/raw/" ++ "main" ++ "/" ++ "install.sh") ∧
    Resource.tryFrom ("https://github.com/" ++ "easy-install" ++ "/" ++
        "easy-install" ++ "/raw/" ++ "main" ++ "/" ++ "install.sh") =
      .ok (.File "easy-install" "easy-install" "main" "install.sh")) ∧
    ((Resource.Release "fish-shell" "fish-shell" "4.1.2" "fish.tar.xz").url
        .GitHub =
      some ("https://github.com/" ++ "fish-shell" ++ "/" ++ "fish-shell" ++
        "/releases/download/" ++ "4.1.2" ++ "/" ++ "fish.tar.xz") ∧
    Resource.tryFrom ("https://github.com/" ++ "fish-shell" ++ "/" ++
        "fish-shell" ++ "/releases/download/" ++ "4.1.2" ++ "/" ++
        "fish.tar.xz") =
      .ok (.Release "fish-shell" "fish-shell" "4.1.2" "fish.tar.xz")) :=
  ⟨c2_roundtrip_amended.1 "easy-install" "easy-install" "main" "install.sh"
      (by decide) (by decide) (by decide) (by decide) (by decide)
      (Or.inl (by decide)) (by decide),
    c2_roundtrip_amended.2 "fish-shell" "fish-shell" "4.1.2" "fish.tar.xz"
      (by decide) (by decide) (by decide) (by decide) (by decide)
      (by decide) (by decide) (by decide) (by decide)⟩

/-- Helper: hypothesis-free cons expansion of `joinSlash`. -/
theorem joinSlash_cons_cons (a b : String) (l : List String) :
    joinSlash (a :: b :: l) = a ++ "/" ++ joinSlash (b :: l) :=
  joinSlash_cons a (b :: l) (by simp)

/-- C1 counterexample: a well-formed blob-shape source URL parses to a
File, but rendering that File under the native proxy produces the
corresponding raw-shape URL, not the original blob URL. -/
theorem c1_counterexample :
    Resource.tryFrom "https://github.com/o/r/blob/main/f.sh" =
      .ok (.File "o" "r" "main" "f.sh") ∧
    (Resource.File "o" "r" "main" "f.sh").url .GitHub =
      some "https://github.com/o/r/raw/main/f.sh" ∧
    ("https://github.com/o/r/raw/main/f.sh" : String) ≠
      "https://github.com/o/r/blob/main/f.sh" := by
  refine ⟨by decide, ?_, by decide⟩
  show some ("https://github.com/" ++ "o" ++ "/" ++ "r" ++ "/raw/" ++
    "main" ++ "/" ++ "f.sh") = _
  decide

/-- C1 (amended): for every raw-shape or releases/download-shape source
URL with `https:` scheme, no surrounding whitespace, and a successful
parse, rendering the parsed Resource under the native proxy returns
exactly the original URL.  Blob-shape URLs are excluded: they parse, but
re-render as the corresponding raw-shape URL (see the counterexample);
`http:`-scheme URLs similarly re-render with the `https:` scheme. -/
theorem c1_render_parse_amended (u : String) (htrim : trimChars u = u)
    (hscheme : (splitSlash u).getD 0 "" = "https:")
    (hshape : (rawFileCaptures u).isSome ∨
      (releaseDownloadCaptures u).isSome) :
    ∀ res : Resource, Resource.tryFrom u = .ok res →
      res.url .GitHub = some u := by
  intro res h
  simp only [Resource.tryFrom, htrim] at h
  rcases hraw : rawFileCaptures u with _ | ⟨⟨o, r, rest⟩⟩
  · rw [hraw] at h
    dsimp only at h
    rcases hblob : blobFileCaptures u with _ | ⟨⟨o, r, rest⟩⟩
    · rw [hblob] at h
      dsimp only at h
      rcases hrel : releaseDownloadCaptures u with _ | ⟨⟨o, r, tg, f⟩⟩
      · rw [hrel] at h
        exact absurd h (by simp)
      · rw [hrel] at h
        dsimp only at h
        obtain rfl : Resource.Release o r tg f = res := by simpa using h
        obtain ⟨s0, t, hsplit, hsch, ho, hr, htg, hfj, hfne⟩ :=
          releaseDownloadCaptures_some hrel
        have hs0 : s0 = "https:" := by
          rw [hsplit] at hscheme
          simpa using hscheme
        subst hs0
        have htne : t ≠ [] := by
          intro h0
          rw [h0] at hfj
          exact hfne (by simpa using hfj)
        have hu : u = "https://github.com/" ++ o ++ "/" ++ r ++
            "/releases/download/" ++ tg ++ "/" ++ f := by
          conv_lhs => rw [← joinSlash_splitSlash u, hsplit]
          rw [joinSlash_cons_cons, joinSlash_cons_cons, joinSlash_cons_cons,
            joinSlash_cons_cons, joinSlash_cons_cons, joinSlash_cons_cons,
            joinSlash_cons_cons, joinSlash_cons tg t htne]
          rw [← hfj]
          exact (url_release_assoc o r tg f).symm
        rw [hu]
        rfl
    · obtain ⟨s0, t, hsplitb, _⟩ := blobFileCaptures_some hblob
      rcases hshape with hs | hs
      · rw [hraw] at hs
        simp at hs
      · rcases hrel : releaseDownloadCaptures u with _ | ⟨⟨o2, r2, tg2, f2⟩⟩
        · rw [hrel] at hs
          simp at hs
        · obtain ⟨s1, t1, hsplit2, _⟩ := releaseDownloadCaptures_some hrel
          rw [hsplitb] at hsplit2
          simp at hsplit2
  · rw [hraw] at h
    dsimp only at h
    obtain ⟨s0, t, hsplit, hsch, ho, hr, hrestj, hrestne⟩ :=
      rawFileCaptures_some hraw
    have hs0 : s0 = "https:" := by
      rw [hsplit] at hscheme
      simpa using hscheme
    subst hs0
    rcases hsp : split_reference_and_path rest with e | ⟨ref, p⟩
    · rw [hsp] at h
      exact absurd h (by simp)
    · rw [hsp] at h
      dsimp only at h
      obtain rfl : Resource.File o r ref p = res := by simpa using h
      have hjoin : ref ++ "/" ++ p = rest := srp_ok_join hsp
      have htne : t ≠ [] := by
        intro h0
        rw [h0] at hrestj
        exact hrestne (by simpa using hrestj)
      have hu : u = "https://github.com/" ++ o ++ "/" ++ r ++ "/raw/" ++
          rest := by
        conv_lhs => rw [← joinSlash_splitSlash u, hsplit]
        rw [joinSlash_cons_cons, joinSlash_cons_cons, joinSlash_cons_cons,
          joinSlash_cons_cons, joinSlash_cons_cons,
          joinSlash_cons "raw" t htne]
        rw [← hrestj]
        exact (url_raw_assoc o r rest).symm
      rw [hu, ← hjoin]
      show some ("https://github.com/" ++ o ++ "/" ++ r ++ "/raw/" ++ ref ++
        "/" ++ p) = _
      congr 1
      simp [sapp_assoc]

/-- C1 witness: `c1_render_parse_amended` at a concrete raw-shape URL. -/
theorem c1_witness :
    (Resource.File "alice" "repo" "v1.0" "bin/tool").url .GitHub =
      some "https://github.com/alice/repo/raw/v1.0/bin/tool" :=
  c1_render_parse_amended "https://github.com/alice/repo/raw/v1.0/bin/tool"
    (by decide) (by decide) (Or.inl (by decide))
    (Resource.File "alice" "repo" "v1.0" "bin/tool") (by decide)
